import Mathlib

/-!
Verification of `keep-to-markdown.py` (a Google-Keep-takeout to Markdown
converter) against its natural-language specification.

The Python program is shallowly embedded: every pure transformation is a Lean
function translated line by line from the source, filesystem and library
queries (`Path.exists`, `shutil.copy2`, `glob.glob`, `mimetypes.guess_type`,
`mimetypes.guess_all_extensions`, `datetime.now`, `datetime.fromtimestamp`)
are fields of an explicit environment record, and the `assert` in
`read_attachments` is modelled with `Except`.
-/

/- ### Generic string helpers (models of Python `str` primitives) -/

/-- Model of Python's `sep.join(xs)`: the elements of `xs` interleaved with
`sep`. -/
def strJoin (sep : String) : List String → String
  | [] => ""
  | [x] => x
  | x :: y :: xs => x ++ sep ++ strJoin sep (y :: xs)

/-- Concatenation of a list of strings (no separator). -/
def strConcat : List String → String
  | [] => ""
  | x :: xs => x ++ strConcat xs

/-- Model of Python's substring test `p in l` on character lists. -/
def isSub (p : List Char) : List Char → Bool
  | [] => p.isEmpty
  | c :: cs => p.isPrefixOf (c :: cs) || isSub p cs

/-- Model of Python's `needle in hay` for strings. -/
def substr (needle hay : String) : Bool :=
  isSub needle.data hay.data

/-- Fuel-indexed engine for Python's `str.replace`: scan left to right and
replace every non-overlapping occurrence of `p` by `r`.  The fuel is the
length of the scanned list, so the recursion is structural; `p` is assumed
non-empty (every pattern in the source program is). -/
def replaceAux (p r : List Char) : Nat → List Char → List Char
  | _, [] => []
  | 0, l => l
  | fuel + 1, c :: cs =>
    if p ≠ [] ∧ p.isPrefixOf (c :: cs) then
      r ++ replaceAux p r fuel ((c :: cs).drop p.length)
    else
      c :: replaceAux p r fuel cs

/-- Model of Python's `s.replace(pat, rep)` for non-empty `pat`. -/
def pyReplace (s pat rep : String) : String :=
  ⟨replaceAux pat.data rep.data s.data.length s.data⟩

/-- Apply a character-to-list function to every character and concatenate
the results (the elementwise normal form of a single-character replace). -/
def charMapF (g : Char → List Char) : List Char → List Char
  | [] => []
  | c :: cs => g c ++ charMapF g cs

/- ### `clean_title` (source lines 144-149) -/

/-- Embedding of `clean_title`: the chained `str.replace` calls of the
source, in source order. -/
def clean_title (title : String) : String :=
  let t1 := pyReplace title "\\" "_"
  let t2 := pyReplace t1 "/" "_"
  let t3 := pyReplace t2 "|" "_"
  let t4 := pyReplace t3 "<" "-"
  let t5 := pyReplace t4 ">" "-"
  let t6 := pyReplace t5 ":" " "
  let t7 := pyReplace t6 "?" ""
  let t8 := pyReplace t7 "\"" ""
  let t9 := pyReplace t8 "*" ""
  pyReplace t9 "\n" ""

/-- The character-wise sanitization map described by the specification:
`\\ / |` become `_`, `< >` become `-`, `:` becomes a space, `? " *` and
newlines are removed, everything else is kept unchanged. -/
def sanitizeChar (c : Char) : Option Char :=
  if c = '\\' ∨ c = '/' ∨ c = '|' then some '_'
  else if c = '<' ∨ c = '>' then some '-'
  else if c = ':' then some ' '
  else if c = '?' ∨ c = '"' ∨ c = '*' ∨ c = '\n' then none
  else some c

/-- Elementwise action of a single one-character replace. -/
def rep1 (a b : Char) (c : Char) : List Char :=
  if c = a then [b] else [c]

/-- Elementwise action of a single one-character removal. -/
def del1 (a : Char) (c : Char) : List Char :=
  if c = a then [] else [c]

/-- The ten sanitization stages of `clean_title`, composed on a single
character. -/
def sanitizeStep (c : Char) : List Char :=
  charMapF (del1 '\n') (charMapF (del1 '*') (charMapF (del1 '"')
    (charMapF (del1 '?') (charMapF (rep1 ':' ' ') (charMapF (rep1 '>' '-')
      (charMapF (rep1 '<' '-') (charMapF (rep1 '|' '_')
        (charMapF (rep1 '/' '_') (rep1 '\\' '_' c)))))))))

/- ### Note data model (source lines 13-41)

`source` and `mimetype` are plain strings: the Python `TypedDict` literals
only document the expected values, and the program tests them at run time
(`== "WEBLINK"`, `"image" in mimetype`). -/

structure Annotation where
  source : String
  title : String
  url : String

/-- The source calls this `Task`; that name is taken by the Lean core
library, so the embedding calls it `TaskItem`. -/
structure TaskItem where
  text : String
  isChecked : Bool

structure Attachment where
  mimetype : String
  filePath : String

/- ### Renderer pieces (source lines 152-174) -/

/-- Embedding of `format_tags` (source lines 152-153). -/
def format_tags (tags : List String) : String :=
  "tags: [" ++ strJoin ", " tags ++ "]"

/-- Embedding of `read_tasklist` (source lines 156-164). -/
def read_tasklist (l : List TaskItem) : String :=
  l.foldl
    (fun acc e =>
      if e.isChecked then acc ++ ("- [x] " ++ e.text ++ "\n")
      else acc ++ ("- [ ] " ++ e.text ++ "\n"))
    "*Tasklist:*\n"

/-- The string appended per web-link entry, the f-string of source
line 173. -/
def weblinkItem (e : Annotation) : String :=
  " [" ++ e.title ++ "](" ++ e.url ++ ");"

/-- Embedding of `read_annotations` (source lines 167-174). -/
def read_annotations (l : List Annotation) : String :=
  l.foldl
    (fun acc e => if e.source = "WEBLINK" then acc ++ weblinkItem e else acc)
    "*Weblinks:*"

/-- Embedding of the front-matter / tag-link block of `read_write_notes`
(source lines 112-121): the text written before the body sections. -/
def headerSection (has_title : Bool) (date : Option String)
    (tags : List String) : String :=
  if has_title then
    "---\n" ++
      (match date with | some d => "date: " ++ d ++ "\n" | none => "") ++
      (if tags ≠ [] then format_tags tags ++ "\n" else "") ++
      "---\n\n"
  else if tags ≠ [] then
    "[[" ++ strJoin "]] [[" tags ++ "]]" ++ "\n"
  else
    ""

/-- The front-matter block as the specification words it: `---` delimiters,
a `date:` line only when a display date is present, a `tags:` line only when
tags are non-empty (comma-space-joined, original order). -/
def frontMatterSpec (date : Option String) (tags : List String) : String :=
  "---\n" ++
    (match date with | some d => "date: " ++ d ++ "\n" | none => "") ++
    (if tags ≠ [] then "tags: [" ++ strJoin ", " tags ++ "]" ++ "\n" else "") ++
    "---\n\n"

/-- The inline tag-link line as the specification words it: space-separated
wiki-style links, one per tag, in original order. -/
def tagLinksSpec (tags : List String) : String :=
  strJoin " " (tags.map (fun t => "[[" ++ t ++ "]]")) ++ "\n"

/- ### Datetime model and environment

The Python code calls `datetime.now()`, `datetime.fromtimestamp(...)`
(local-time dependent), `Path.exists` / `shutil.copy2` (the source tree),
`glob.glob` and the `mimetypes` tables.  All of these are modelled as fields
of an explicit environment record; the formatting applied to the resulting
datetime values is embedded concretely below. -/

/-- A broken-down local datetime, as produced by Python's `datetime`. -/
structure PyDatetime where
  year : Nat
  month : Nat
  day : Nat
  hour : Nat
  minute : Nat
  second : Nat
  microsecond : Nat

/-- Decimal representation of `n` left-padded with `'0'` to width `w`
(the behaviour of the zero-padded `strftime` fields). -/
def zfill (w n : Nat) : String :=
  ⟨List.replicate (w - (Nat.repr n).length) '0'⟩ ++ Nat.repr n

/-- `strftime("%Y%m%dT%H%M%S.%f_edited")` (source line 66). -/
def strftimeEdited (d : PyDatetime) : String :=
  zfill 4 d.year ++ zfill 2 d.month ++ zfill 2 d.day ++ "T" ++
    zfill 2 d.hour ++ zfill 2 d.minute ++ zfill 2 d.second ++ "." ++
    zfill 6 d.microsecond ++ "_edited"

/-- `strftime("%Y-%m-%d+%H%M%S")` (source line 77). -/
def strftimePlus (d : PyDatetime) : String :=
  zfill 4 d.year ++ "-" ++ zfill 2 d.month ++ "-" ++ zfill 2 d.day ++ "+" ++
    zfill 2 d.hour ++ zfill 2 d.minute ++ zfill 2 d.second

/-- `isoformat(timespec="seconds")` (source line 75). -/
def isoSeconds (d : PyDatetime) : String :=
  zfill 4 d.year ++ "-" ++ zfill 2 d.month ++ "-" ++ zfill 2 d.day ++ "T" ++
    zfill 2 d.hour ++ ":" ++ zfill 2 d.minute ++ ":" ++ zfill 2 d.second

/-- The ambient environment: clock, local-time conversion, and the
filesystem / `mimetypes` queries made by the program.
* `fromtimestampUsec ts` is `datetime.fromtimestamp(ts / 1000000)` — the
  float division and the local timezone are absorbed into this field;
* `srcExists f` is whether `shutil.copy2(source_dir / f, ...)` succeeds
  (source lines 202-209);
* `globMatch q` is whether `glob.glob(f"{path}{q}")` is non-empty — the
  (separator-less) `str(path)` prefix of the pattern is absorbed here;
* `guessType f` is `mimetypes.guess_type(str(path / f))[0]` — it depends
  only on the filename's extension;
* `guessAllExtensions m` is `mimetypes.guess_all_extensions(m)`. -/
structure Env where
  now : PyDatetime
  fromtimestampUsec : Nat → PyDatetime
  srcExists : String → Bool
  globMatch : String → Bool
  guessType : String → Option String
  guessAllExtensions : String → List String

/- ### Filename deriver (source lines 62-77) -/

/-- Embedding of the `match data["title"], data["userEditedTimestampUsec"]`
statement: produces `(filename, has_title, date)`. -/
def derive (env : Env) (title : String) (ts : Nat) :
    String × Bool × Option String :=
  if title = "" ∧ ts = 0 then
    (strftimeEdited env.now, false, none)
  else if ts = 0 then
    ((clean_title title).take 99, true, none)
  else
    let date_obj := env.fromtimestampUsec ts
    if title ≠ "" then
      ((clean_title title).take 99, true, some (isoSeconds date_obj))
    else
      (strftimePlus date_obj, false, none)

/-- The four priority rules exactly as the specification words them. -/
def deriveSpecClaim (env : Env) (title : String) (ts : Nat) :
    String × Bool × Option String :=
  if title = "" then
    if ts = 0 then (strftimeEdited env.now, false, none)
    else (strftimePlus (env.fromtimestampUsec ts), false, none)
  else
    ((clean_title title).take 99, true,
      if ts ≠ 0 then some (isoSeconds (env.fromtimestampUsec ts)) else none)

/- ### Attachment resolver (source lines 177-209) -/

/-- Embedding of `copy_file` (source lines 202-209): `True` iff the copy
succeeded (`shutil.copy2` did not raise `FileNotFoundError`). -/
def copy_file (env : Env) (file : String) : Bool :=
  env.srcExists file

/-- The inner `for t in types` loop (source lines 193-197): each glob match
reassigns `image` and calls `copy_file`; `calls` records the filenames
passed to `copy_file`, in order.  Note the loop has no `break`: a later
match overwrites an earlier one. -/
def fallbackInner (env : Env) (stem : String) (types : List String)
    (image : String) (calls : List String) : String × List String :=
  match types with
  | [] => (image, calls)
  | t :: rest =>
    if env.globMatch (stem ++ t) then
      fallbackInner env stem rest (stem ++ t) (calls ++ [stem ++ t])
    else
      fallbackInner env stem rest image calls

/-- The outer `for type in types` loop (source lines 190-197): for each
known extension that is a substring of the current `image`, strip it
(`str.replace`, all occurrences) and run the inner probing loop. -/
def fallbackOuter (env : Env) (types allTypes : List String)
    (image : String) (calls : List String) : String × List String :=
  match types with
  | [] => (image, calls)
  | ty :: rest =>
    if substr ty image then
      let image_name := pyReplace image ty ""
      let p := fallbackInner env image_name allTypes image calls
      fallbackOuter env rest allTypes p.1 p.2
    else
      fallbackOuter env rest allTypes image calls

/-- Resolution of one image attachment (source lines 181-197): try the
direct copy; on failure guess the MIME type (the `assert` on line 188 is
modelled as `Except.error`) and run the fallback loops.  Returns the final
`image` name used in the rendered link together with every filename passed
to `copy_file`. -/
def processOne (env : Env) (image : String) :
    Except String (String × List String) :=
  if copy_file env image then
    .ok (image, [image])
  else
    match env.guessType image with
    | none => .error ("assert failed: no MIME type guess for " ++ image)
    | some mt =>
      let types := env.guessAllExtensions mt
      let p := fallbackOuter env types types image [image]
      .ok p

/-- The loop body of `read_attachments` (source lines 179-198): entries
whose mimetype contains `"image"` are resolved and rendered as
`![image](resources/image)` lines appended to `acc`. -/
def read_attachments_aux (env : Env) :
    List Attachment → String → List String →
      Except String (String × List String)
  | [], acc, calls => .ok (acc, calls)
  | e :: rest, acc, calls =>
    if substr "image" e.mimetype then
      match processOne env e.filePath with
      | .error msg => .error msg
      | .ok (img, cs) =>
        read_attachments_aux env rest
          (acc ++ ("![" ++ img ++ "](resources/" ++ img ++ ")" ++ "\n"))
          (calls ++ cs)
    else
      read_attachments_aux env rest acc calls

/-- Embedding of `read_attachments` (source lines 177-199). -/
def read_attachments (env : Env) (l : List Attachment) :
    Except String (String × List String) :=
  read_attachments_aux env l "*Attachments:*\n" []

/-- Whether attachment rendering completed without hitting the `assert`. -/
def isOkE (r : Except String (String × List String)) : Bool :=
  match r with
  | .ok _ => true
  | .error _ => false

/-- The claim's reading of the fallback search, inner loop: the FIRST
`stem ++ extension` that glob-matches. -/
def firstMatchInner (env : Env) (stem : String) : List String → Option String
  | [] => none
  | t :: rest =>
    if env.globMatch (stem ++ t) then some (stem ++ t)
    else firstMatchInner env stem rest

/-- The claim's reading of the fallback search, outer loop: stems are taken
from the original referenced filename and the search stops at the first
match. -/
def firstMatchSpec (env : Env) (allTypes : List String) :
    List String → String → Option String
  | [], _ => none
  | ty :: rest, image =>
    if substr ty image then
      match firstMatchInner env (pyReplace image ty "") allTypes with
      | some m => some m
      | none => firstMatchSpec env allTypes rest image
    else
      firstMatchSpec env allTypes rest image

/- ### The per-note Markdown writer (source lines 108-141) -/

/-- Body text section (source lines 123-126). -/
def textSection : Option String → String
  | some t => t ++ "\n\n"
  | none => ""

/-- Tasklist section (source lines 128-131). -/
def tasklistSection : Option (List TaskItem) → String
  | some l => read_tasklist l ++ "\n\n"
  | none => ""

/-- Annotations section (source lines 133-136). -/
def annotationsSection : Option (List Annotation) → String
  | some l => read_annotations l
  | none => ""

/-- Outcome of writing one note's Markdown file: the file is created the
moment `md_path.open("w")` runs (source line 111), `content` is what has
been written when the `with` block ends or the first rendering error
escapes, `err` is that error, and `copyCalls` lists the `copy_file`
invocations made while rendering attachments. -/
structure WriteResult where
  created : Bool
  content : String
  err : Option String
  copyCalls : List String

/-- Embedding of the `with md_path.open("w") ... ` block (source lines
110-141): the file is opened first, then each section is rendered and
written in order; an error raised while rendering the attachment section
(the f-string on line 139 is evaluated before its `write`) leaves the
previously written sections in the file. -/
def writeNote (env : Env) (has_title : Bool) (date : Option String)
    (tags : List String) (textContent : Option String)
    (listContent : Option (List TaskItem))
    (annotations : Option (List Annotation))
    (attachments : Option (List Attachment)) : WriteResult :=
  let s1 := headerSection has_title date tags
  let s2 := s1 ++ textSection textContent
  let s3 := s2 ++ tasklistSection listContent
  let s4 := s3 ++ annotationsSection annotations
  match attachments with
  | none => ⟨true, s4, none, []⟩
  | some l =>
    match read_attachments env l with
    | .error e => ⟨true, s4, some e, []⟩
    | .ok (s5, calls) => ⟨true, s4 ++ s5, none, calls⟩

/- ### Duplicate resolver (source lines 88-100)

The probing loop `for dup_num in itertools.count(1)` terminates because the
existing-file set is finite and distinct indices give distinct candidate
names; the embedding uses `Nat.find` on a proof of that fact, so the
definition returns exactly the first free index, like the source. -/

/-- The markdown filename for a base name (`f"{filename}.md"`). -/
def mdName (base : String) : String := base ++ ".md"

/-- The numbered candidate (`f"{filename}({dup_num})"`). -/
def numberedName (base : String) (k : Nat) : String :=
  base ++ "(" ++ Nat.repr k ++ ")"

/-- The file name probed at loop iteration `k` (`dup_num = k + 1`). -/
def nameAt (base : String) (k : Nat) : String :=
  mdName (numberedName base (k + 1))

/-- Numeric value of a decimal digit character. -/
def digitVal (c : Char) : Nat := c.toNat - '0'.toNat

/-- Numeric value of a most-significant-first decimal digit string. -/
def listVal (l : List Char) : Nat :=
  l.foldl (fun a c => 10 * a + digitVal c) 0

/-- `Nat.toDigitsCore` ignores the exact amount of fuel, provided there is
enough of it. -/
def toDigitsCore_fuel : ∀ (n f₁ f₂ : Nat) (ds : List Char), n < f₁ →
    n < f₂ → Nat.toDigitsCore 10 f₁ n ds = Nat.toDigitsCore 10 f₂ n ds := by
  intro n
  induction n using Nat.strong_induction_on with
  | _ n ih =>
    intro f₁ f₂ ds h₁ h₂
    cases f₁ with
    | zero => omega
    | succ a =>
      cases f₂ with
      | zero => omega
      | succ b =>
        simp only [Nat.toDigitsCore]
        by_cases h : n / 10 = 0
        · simp [h]
        · simp only [h, if_false]
          have hn : 0 < n := by
            rcases Nat.eq_zero_or_pos n with h0 | h0
            · exact absurd (by simp [h0]) h
            · exact h0
          have hdiv : n / 10 < n := Nat.div_lt_self hn (by norm_num)
          exact ih (n / 10) hdiv a b _ (by omega) (by omega)

/-- `Nat.toDigitsCore` prepends its digits to the accumulator. -/
def toDigitsCore_acc : ∀ (f n : Nat) (ds : List Char),
    Nat.toDigitsCore 10 f n ds = Nat.toDigitsCore 10 f n [] ++ ds := by
  intro f
  induction f with
  | zero => intro n ds; simp [Nat.toDigitsCore]
  | succ f ih =>
    intro n ds
    simp only [Nat.toDigitsCore]
    by_cases h : n / 10 = 0
    · simp [h]
    · simp only [h, if_false]
      rw [ih (n / 10) (Nat.digitChar (n % 10) :: ds),
        ih (n / 10) [Nat.digitChar (n % 10)], List.append_assoc]
      rfl

/-- Digit characters decode back to their digit. -/
def digitVal_digitChar : ∀ d, d < 10 → digitVal (Nat.digitChar d) = d := by
  decide

/-- Decimal round trip: decoding the digit string of `n` gives back `n`. -/
def listVal_toDigits : ∀ n, listVal (Nat.toDigits 10 n) = n := by
  intro n
  induction n using Nat.strong_induction_on with
  | _ n ih =>
    show listVal (Nat.toDigitsCore 10 (n + 1) n []) = n
    by_cases h : n / 10 = 0
    · have hn : n < 10 := by omega
      have hrw : Nat.toDigitsCore 10 (n + 1) n [] =
          [Nat.digitChar (n % 10)] := by
        simp only [Nat.toDigitsCore, h, if_true]
      rw [hrw]
      have : listVal [Nat.digitChar (n % 10)] =
          digitVal (Nat.digitChar (n % 10)) := by
        simp [listVal]
      rw [this, Nat.mod_eq_of_lt hn]
      exact digitVal_digitChar n hn
    · have hn : 0 < n := by
        rcases Nat.eq_zero_or_pos n with h0 | h0
        · exact absurd (by simp [h0]) h
        · exact h0
      have hdiv : n / 10 < n := Nat.div_lt_self hn (by norm_num)
      have hstep : Nat.toDigitsCore 10 (n + 1) n [] =
          Nat.toDigits 10 (n / 10) ++ [Nat.digitChar (n % 10)] := by
        have h1 : Nat.toDigitsCore 10 (n + 1) n [] =
            Nat.toDigitsCore 10 n (n / 10) [Nat.digitChar (n % 10)] := by
          simp only [Nat.toDigitsCore, h, if_false]
        rw [h1, toDigitsCore_acc n (n / 10) [Nat.digitChar (n % 10)]]
        show _ ++ _ = Nat.toDigitsCore 10 (n / 10 + 1) (n / 10) [] ++ _
        rw [toDigitsCore_fuel (n / 10) n (n / 10 + 1) [] (by omega) (by omega)]
      rw [hstep]
      have happ : listVal (Nat.toDigits 10 (n / 10) ++
          [Nat.digitChar (n % 10)]) =
          10 * listVal (Nat.toDigits 10 (n / 10)) +
            digitVal (Nat.digitChar (n % 10)) := by
        simp [listVal, List.foldl_append]
      rw [happ, ih (n / 10) hdiv,
        digitVal_digitChar (n % 10) (Nat.mod_lt n (by norm_num))]
      omega

/-- `Nat.repr` is injective (two distinct numbers print differently). -/
def repr_inj : ∀ m n : Nat, Nat.repr m = Nat.repr n → m = n := by
  intro m n h
  have hd : Nat.toDigits 10 m = Nat.toDigits 10 n := congrArg String.data h
  have hv := congrArg listVal hd
  rwa [listVal_toDigits, listVal_toDigits] at hv

/-- Distinct loop iterations probe distinct file names. -/
def nameAt_inj (base : String) :
    ∀ k₁ k₂, nameAt base k₁ = nameAt base k₂ → k₁ = k₂ := by
  intro k₁ k₂ h
  have hd := congrArg String.data h
  simp only [nameAt, mdName, numberedName, String.data_append] at hd
  have h1 := List.append_cancel_right hd
  have h2 := List.append_cancel_right h1
  have h3 := List.append_cancel_left h2
  have h4 : Nat.repr (k₁ + 1) = Nat.repr (k₂ + 1) := by
    have e₁ : Nat.repr (k₁ + 1) = ⟨(Nat.repr (k₁ + 1)).data⟩ := rfl
    have e₂ : Nat.repr (k₂ + 1) = ⟨(Nat.repr (k₂ + 1)).data⟩ := rfl
    rw [e₁, e₂, h3]
  have := repr_inj (k₁ + 1) (k₂ + 1) h4
  omega

/-- The probing loop terminates: some iteration finds a fresh name. -/
def exists_fresh (fs : List String) (base : String) :
    ∃ k, nameAt base k ∉ fs := by
  by_contra hcon
  push_neg at hcon
  have hsub : Set.range (nameAt base) ⊆ {s | s ∈ fs} := by
    rintro x ⟨k, rfl⟩
    exact hcon k
  have hfin : (Set.range (nameAt base)).Finite :=
    (List.finite_toSet fs).subset hsub
  have hinj : Function.Injective (nameAt base) :=
    fun a b hab => nameAt_inj base a b hab
  exact Set.infinite_range_of_injective hinj hfin

/-- Embedding of the duplicate-number logic of `read_write_notes` (source
lines 88-100): `fs` is the set of file names existing in `notes_dir`.  If
`<base>.md` exists, probe `<base>(1).md`, `<base>(2).md`, ... and return
the first free candidate; otherwise return `base` unchanged. -/
def resolveDup (fs : List String) (base : String) : String :=
  if mdName base ∈ fs then
    numberedName base (Nat.find (exists_fresh fs base) + 1)
  else
    base

/- ### Concrete environments for the counterexamples and witnesses -/

def dtZero : PyDatetime := ⟨0, 0, 0, 0, 0, 0, 0⟩

/-- An environment with an empty source tree and no MIME knowledge. -/
def envNoFs : Env :=
  ⟨dtZero, fun _ => dtZero, fun _ => false, fun _ => false,
    fun _ => none, fun _ => []⟩

/-- The extension list `mimetypes.guess_all_extensions("image/jpeg")`
starts with these entries. -/
def types0 : List String := [".jpg", ".jpeg", ".jpe"]

/-- Source tree for the fallback counterexample: `photo.jpg` is referenced
but missing, while both `photo.jpeg` and `photo.jpe` exist. -/
def env0 : Env :=
  ⟨dtZero, fun _ => dtZero,
    fun s => s == "photo.jpeg" || s == "photo.jpe",
    fun s => s == "photo.jpeg" || s == "photo.jpe",
    fun s => if s == "photo.jpg" then some "image/jpeg" else none,
    fun _ => types0⟩

/-- An environment whose MIME guess always succeeds but where no file
exists and no glob pattern matches. -/
def envG : Env :=
  ⟨dtZero, fun _ => dtZero, fun _ => false, fun _ => false,
    fun _ => some "image/png", fun _ => [".png"]⟩

/-- Existing files for the duplicate-resolver witness: both `a.md` and
`a(1).md` are taken. -/
def fs0 : List String := ["a.md", "a(1).md"]

/-- A note whose attachment rendering hits the `assert`: text and header
sections are written before the error is raised. -/
def writeBad : WriteResult :=
  writeNote envNoFs true (some "2023-11-14T22:13:20") ["home"] (some "hello")
    none none (some [⟨"image", "noext"⟩])

/- ### Helper lemmas about the string models -/

theorem charMapF_append (g : Char → List Char) (l₁ l₂ : List Char) :
    charMapF g (l₁ ++ l₂) = charMapF g l₁ ++ charMapF g l₂ := by
  induction l₁ with
  | nil => rfl
  | cons c cs ih => simp [charMapF, ih]

/-- A one-character replace is the elementwise map `rep1`. -/
theorem replaceAux_rep1 (a b : Char) :
    ∀ (fuel : Nat) (l : List Char), l.length ≤ fuel →
      replaceAux [a] [b] fuel l = charMapF (rep1 a b) l := by
  intro fuel
  induction fuel with
  | zero =>
    intro l hl
    cases l with
    | nil => rfl
    | cons c cs => simp at hl
  | succ n ih =>
    intro l hl
    cases l with
    | nil => rfl
    | cons c cs =>
      simp only [List.length_cons, Nat.succ_le_succ_iff] at hl
      by_cases hca : a = c
      · subst hca
        simp [replaceAux, List.isPrefixOf, charMapF, rep1, ih cs hl]
      · have hpre : ([a].isPrefixOf (c :: cs)) = false := by
          simp [List.isPrefixOf]
          exact fun h => absurd h hca
        have hne : ¬(c = a) := fun h => hca h.symm
        simp [replaceAux, hpre, charMapF, rep1, hne, ih cs hl]

/-- A one-character removal is the elementwise map `del1`. -/
theorem replaceAux_del1 (a : Char) :
    ∀ (fuel : Nat) (l : List Char), l.length ≤ fuel →
      replaceAux [a] [] fuel l = charMapF (del1 a) l := by
  intro fuel
  induction fuel with
  | zero =>
    intro l hl
    cases l with
    | nil => rfl
    | cons c cs => simp at hl
  | succ n ih =>
    intro l hl
    cases l with
    | nil => rfl
    | cons c cs =>
      simp only [List.length_cons, Nat.succ_le_succ_iff] at hl
      by_cases hca : a = c
      · subst hca
        simp [replaceAux, List.isPrefixOf, charMapF, del1, ih cs hl]
      · have hpre : ([a].isPrefixOf (c :: cs)) = false := by
          simp [List.isPrefixOf]
          exact fun h => absurd h hca
        have hne : ¬(c = a) := fun h => hca h.symm
        simp [replaceAux, hpre, charMapF, del1, hne, ih cs hl]

theorem pyReplace_rep1 (a b : Char) (pat rep : String)
    (hp : pat.data = [a]) (hr : rep.data = [b]) (s : String) :
    (pyReplace s pat rep).data = charMapF (rep1 a b) s.data := by
  show replaceAux pat.data rep.data s.data.length s.data = _
  rw [hp, hr]
  exact replaceAux_rep1 a b s.data.length s.data (Nat.le_refl _)

theorem pyReplace_del1 (a : Char) (pat rep : String)
    (hp : pat.data = [a]) (hr : rep.data = []) (s : String) :
    (pyReplace s pat rep).data = charMapF (del1 a) s.data := by
  show replaceAux pat.data rep.data s.data.length s.data = _
  rw [hp, hr]
  exact replaceAux_del1 a s.data.length s.data (Nat.le_refl _)

/-- One character pushed through all ten stages agrees with the
specification's character map. -/
theorem sanitizeStep_eq (c : Char) :
    sanitizeStep c = (sanitizeChar c).toList := by
  by_cases h1 : c = '\\'
  · subst h1; rfl
  by_cases h2 : c = '/'
  · subst h2; rfl
  by_cases h3 : c = '|'
  · subst h3; rfl
  by_cases h4 : c = '<'
  · subst h4; rfl
  by_cases h5 : c = '>'
  · subst h5; rfl
  by_cases h6 : c = ':'
  · subst h6; rfl
  by_cases h7 : c = '?'
  · subst h7; rfl
  by_cases h8 : c = '"'
  · subst h8; rfl
  by_cases h9 : c = '*'
  · subst h9; rfl
  by_cases h10 : c = '\n'
  · subst h10; rfl
  simp [sanitizeStep, charMapF, rep1, del1, sanitizeChar,
    h1, h2, h3, h4, h5, h6, h7, h8, h9, h10]

/-- The ten chained elementwise stages collapse to a single `filterMap` by
the specification's character map. -/
theorem chain_eq_filterMap (l : List Char) :
    charMapF (del1 '\n') (charMapF (del1 '*') (charMapF (del1 '"')
      (charMapF (del1 '?') (charMapF (rep1 ':' ' ') (charMapF (rep1 '>' '-')
        (charMapF (rep1 '<' '-') (charMapF (rep1 '|' '_')
          (charMapF (rep1 '/' '_') (charMapF (rep1 '\\' '_') l))))))))) =
    l.filterMap sanitizeChar := by
  induction l with
  | nil => rfl
  | cons c cs ih =>
    have hstep : charMapF (rep1 '\\' '_') (c :: cs) =
        rep1 '\\' '_' c ++ charMapF (rep1 '\\' '_') cs := rfl
    rw [hstep, charMapF_append, charMapF_append, charMapF_append,
      charMapF_append, charMapF_append, charMapF_append, charMapF_append,
      charMapF_append, charMapF_append, ih]
    have : charMapF (del1 '\n') (charMapF (del1 '*') (charMapF (del1 '"')
        (charMapF (del1 '?') (charMapF (rep1 ':' ' ')
          (charMapF (rep1 '>' '-') (charMapF (rep1 '<' '-')
            (charMapF (rep1 '|' '_') (charMapF (rep1 '/' '_')
              (rep1 '\\' '_' c))))))))) = sanitizeStep c := rfl
    rw [this, sanitizeStep_eq]
    cases h : sanitizeChar c <;> simp [List.filterMap_cons, h]

/-- `clean_title` is exactly the character-wise `filterMap` by
`sanitizeChar`. -/
theorem clean_title_data (s : String) :
    (clean_title s).data = s.data.filterMap sanitizeChar := by
  show (pyReplace _ "\n" "").data = _
  rw [pyReplace_del1 '\n' "\n" "" rfl rfl,
    pyReplace_del1 '*' "*" "" rfl rfl,
    pyReplace_del1 '"' "\"" "" rfl rfl,
    pyReplace_del1 '?' "?" "" rfl rfl,
    pyReplace_rep1 ':' ' ' ":" " " rfl rfl,
    pyReplace_rep1 '>' '-' ">" "-" rfl rfl,
    pyReplace_rep1 '<' '-' "<" "-" rfl rfl,
    pyReplace_rep1 '|' '_' "|" "_" rfl rfl,
    pyReplace_rep1 '/' '_' "/" "_" rfl rfl,
    pyReplace_rep1 '\\' '_' "\\" "_" rfl rfl]
  exact chain_eq_filterMap s.data

theorem clean_title_eq (s : String) :
    clean_title s = ⟨s.data.filterMap sanitizeChar⟩ := by
  have h := clean_title_data s
  cases hct : clean_title s with
  | mk d =>
    rw [hct] at h
    exact congrArg String.mk h

/-- `sanitizeChar` maps its own outputs to themselves. -/
theorem sanitizeChar_fixed (c d : Char) (h : sanitizeChar c = some d) :
    sanitizeChar d = some d := by
  by_cases h1 : c = '\\' ∨ c = '/' ∨ c = '|'
  · simp [sanitizeChar, h1] at h
    subst h; rfl
  by_cases h2 : c = '<' ∨ c = '>'
  · simp [sanitizeChar, h1, h2] at h
    subst h; rfl
  by_cases h3 : c = ':'
  · simp [sanitizeChar, h1, h2, h3] at h
    subst h; rfl
  by_cases h4 : c = '?' ∨ c = '"' ∨ c = '*' ∨ c = '\n'
  · simp [sanitizeChar, h1, h2, h3, h4] at h
  · simp [sanitizeChar, h1, h2, h3, h4] at h
    subst h
    simp [sanitizeChar, h1, h2, h3, h4]

theorem filterMap_sanitize_idem (l : List Char) :
    (l.filterMap sanitizeChar).filterMap sanitizeChar =
      l.filterMap sanitizeChar := by
  induction l with
  | nil => rfl
  | cons c cs ih =>
    cases h : sanitizeChar c with
    | none => simp [List.filterMap_cons, h, ih]
    | some d =>
      simp [List.filterMap_cons, h, sanitizeChar_fixed c d h, ih]

/-- The source's wrapped join `[[t1]] [[t2]] ...` equals the space-separated
list of wiki links of the specification. -/
theorem wikiLinks_eq (t : String) (ts : List String) :
    "[[" ++ strJoin "]] [[" (t :: ts) ++ "]]" =
      strJoin " " ((t :: ts).map (fun x => "[[" ++ x ++ "]]")) := by
  induction ts generalizing t with
  | nil => rfl
  | cons y ys ih =>
    show "[[" ++ ((t ++ "]] [[") ++ strJoin "]] [[" (y :: ys)) ++ "]]" =
      ((("[[" ++ t) ++ "]]") ++ " ") ++
        strJoin " " ((y :: ys).map (fun x => "[[" ++ x ++ "]]"))
    rw [← ih y]
    have hsep : ("]] [[" : String) = ("]]" ++ " ") ++ "[[" := rfl
    rw [hsep]
    simp only [String.append_assoc]

/-- Closed form of the `read_annotations` fold, for any accumulator. -/
theorem read_annotations_foldl (l : List Annotation) (acc : String) :
    l.foldl
      (fun acc e => if e.source = "WEBLINK" then acc ++ weblinkItem e else acc)
      acc =
      acc ++ strConcat
        ((l.filter (fun e => e.source == "WEBLINK")).map weblinkItem) := by
  induction l generalizing acc with
  | nil => simp [strConcat]
  | cons e es ih =>
    by_cases h : e.source = "WEBLINK"
    · simp [List.foldl, h, ih, List.filter_cons, strConcat,
        String.append_assoc]
    · simp [List.foldl, h, ih, List.filter_cons]

theorem getLastD_append' (l₁ l₂ : List String) (d : String) :
    (l₁ ++ l₂).getLastD d = l₂.getLastD (l₁.getLastD d) := by
  induction l₁ generalizing d with
  | nil => rfl
  | cons a as ih =>
    rw [List.cons_append, List.getLastD_cons, ih a, List.getLastD_cons]

/-- Closed form of the inner probing loop: it visits every extension, so the
final `image` is the LAST glob match (or the unchanged input when none
matches), and every match is passed to `copy_file`, in order. -/
theorem fallbackInner_spec (env : Env) (stem : String) :
    ∀ (types : List String) (image : String) (calls : List String),
      fallbackInner env stem types image calls =
        (((types.filter (fun t => env.globMatch (stem ++ t))).map
            (fun t => stem ++ t)).getLastD image,
          calls ++ ((types.filter (fun t => env.globMatch (stem ++ t))).map
            (fun t => stem ++ t))) := by
  intro types
  induction types with
  | nil => intro image calls; simp [fallbackInner]
  | cons t rest ih =>
    intro image calls
    have hunf : fallbackInner env stem (t :: rest) image calls =
        (if env.globMatch (stem ++ t) then
          fallbackInner env stem rest (stem ++ t) (calls ++ [stem ++ t])
        else fallbackInner env stem rest image calls) := rfl
    by_cases h : env.globMatch (stem ++ t) = true
    · rw [hunf, if_pos h, ih]
      simp only [List.filter_cons, List.map_cons]
      rw [if_pos h, List.map_cons, List.getLastD_cons]
      simp [List.append_assoc]
    · rw [hunf, if_neg h, ih]
      simp only [List.filter_cons]
      rw [if_neg h]

/-- Closed form of the outer loop: there is a list `M` of glob matches such
that the final `image` is the last element of `M` (or the input when `M` is
empty) and exactly the elements of `M` are appended to the copy log. -/
theorem fallbackOuter_spec (env : Env) :
    ∀ (types allTypes : List String) (image : String) (calls : List String),
      ∃ M : List String,
        fallbackOuter env types allTypes image calls =
          (M.getLastD image, calls ++ M) ∧
        ∀ m ∈ M, env.globMatch m = true := by
  intro types
  induction types with
  | nil =>
    intro allTypes image calls
    exact ⟨[], by simp [fallbackOuter], by simp⟩
  | cons ty rest ih =>
    intro allTypes image calls
    by_cases h : substr ty image = true
    · obtain ⟨M₂, hM₂, hg₂⟩ := ih allTypes
        ((((allTypes.filter
            (fun t => env.globMatch (pyReplace image ty "" ++ t))).map
            (fun t => pyReplace image ty "" ++ t))).getLastD image)
        (calls ++ ((allTypes.filter
            (fun t => env.globMatch (pyReplace image ty "" ++ t))).map
            (fun t => pyReplace image ty "" ++ t)))
      refine ⟨((allTypes.filter
          (fun t => env.globMatch (pyReplace image ty "" ++ t))).map
          (fun t => pyReplace image ty "" ++ t)) ++ M₂, ?_, ?_⟩
      · show fallbackOuter env (ty :: rest) allTypes image calls = _
        rw [show fallbackOuter env (ty :: rest) allTypes image calls =
            (if substr ty image then
              fallbackOuter env rest allTypes
                (fallbackInner env (pyReplace image ty "") allTypes image
                  calls).1
                (fallbackInner env (pyReplace image ty "") allTypes image
                  calls).2
            else fallbackOuter env rest allTypes image calls) from rfl, h]
        simp only [if_true, fallbackInner_spec]
        rw [hM₂, getLastD_append', List.append_assoc]
      · intro m hm
        rcases List.mem_append.mp hm with hm₁ | hm₂
        · obtain ⟨t, ht, rfl⟩ := List.mem_map.mp hm₁
          exact (List.mem_filter.mp ht).2
        · exact hg₂ m hm₂
    · have hf : substr ty image = false := by simpa using h
      obtain ⟨M, hM, hg⟩ := ih allTypes image calls
      refine ⟨M, ?_, hg⟩
      rw [show fallbackOuter env (ty :: rest) allTypes image calls =
          (if substr ty image then
            fallbackOuter env rest allTypes
              (fallbackInner env (pyReplace image ty "") allTypes image
                calls).1
              (fallbackInner env (pyReplace image ty "") allTypes image
                calls).2
          else fallbackOuter env rest allTypes image calls) from rfl, hf]
      simpa using hM

/-- When no glob pattern matches at all, the fallback loops change
nothing. -/
theorem fallbackOuter_noglob (env : Env)
    (hng : ∀ s, env.globMatch s = false) (types allTypes : List String)
    (image : String) (calls : List String) :
    fallbackOuter env types allTypes image calls = (image, calls) := by
  obtain ⟨M, hM, hg⟩ := fallbackOuter_spec env types allTypes image calls
  cases M with
  | nil => simpa using hM
  | cons m ms =>
    exact absurd (hg m (List.mem_cons_self m ms)) (by simp [hng m])

/-- A missing image with a guessable MIME type resolves without error to
the last glob match, every match being passed to `copy_file` after the
failed initial attempt. -/
theorem processOne_missing (env : Env) (image mt : String)
    (hmiss : env.srcExists image = false)
    (hmt : env.guessType image = some mt) :
    ∃ M, processOne env image = .ok (M.getLastD image, image :: M) ∧
      ∀ m ∈ M, env.globMatch m = true := by
  obtain ⟨M, hM, hg⟩ := fallbackOuter_spec env (env.guessAllExtensions mt)
    (env.guessAllExtensions mt) image [image]
  refine ⟨M, ?_, hg⟩
  simp [processOne, copy_file, hmiss, hmt, hM]

/-- `read_attachments` on a single missing image attachment with a
guessable MIME type. -/
theorem read_attachments_single (env : Env) (fp mt : String)
    (hmiss : env.srcExists fp = false)
    (hmt : env.guessType fp = some mt) :
    ∃ M, read_attachments env [⟨"image", fp⟩] =
        .ok ("*Attachments:*\n" ++
          ("![" ++ M.getLastD fp ++ "](resources/" ++ M.getLastD fp ++ ")" ++
            "\n"), fp :: M) ∧
      ∀ m ∈ M, env.globMatch m = true := by
  obtain ⟨M, hP, hg⟩ := processOne_missing env fp mt hmiss hmt
  refine ⟨M, ?_, hg⟩
  have hsub : substr "image" "image" = true := rfl
  simp [read_attachments, read_attachments_aux, hsub, hP]

/-- The attachment loop never raises provided every missing image's MIME
type can be guessed. -/
theorem read_attachments_aux_ok (env : Env) :
    ∀ (l : List Attachment) (acc : String) (calls : List String),
      (∀ e ∈ l, substr "image" e.mimetype = true →
        env.srcExists e.filePath = false →
        (env.guessType e.filePath).isSome = true) →
      isOkE (read_attachments_aux env l acc calls) = true := by
  intro l
  induction l with
  | nil => intro acc calls _; rfl
  | cons e rest ih =>
    intro acc calls h
    by_cases hs : substr "image" e.mimetype = true
    · have hP : ∃ p, processOne env e.filePath = .ok p := by
        by_cases hex : env.srcExists e.filePath = true
        · exact ⟨(e.filePath, [e.filePath]),
            by simp [processOne, copy_file, hex]⟩
        · have hfalse : env.srcExists e.filePath = false := by simpa using hex
          have hsome := h e (List.mem_cons_self e rest) hs hfalse
          obtain ⟨mt, hmt⟩ := Option.isSome_iff_exists.mp hsome
          obtain ⟨M, hM, _⟩ := processOne_missing env e.filePath mt hfalse hmt
          exact ⟨_, hM⟩
      obtain ⟨⟨img, cs⟩, hP⟩ := hP
      rw [show read_attachments_aux env (e :: rest) acc calls =
          (if substr "image" e.mimetype then
            match processOne env e.filePath with
            | .error msg => .error msg
            | .ok (img, cs) =>
              read_attachments_aux env rest
                (acc ++ ("![" ++ img ++ "](resources/" ++ img ++ ")" ++ "\n"))
                (calls ++ cs)
          else read_attachments_aux env rest acc calls) from rfl, hs, hP]
      simp only [if_true]
      exact ih _ _ (fun e' he' => h e' (List.mem_cons_of_mem e he'))
    · have hf : substr "image" e.mimetype = false := by simpa using hs
      rw [show read_attachments_aux env (e :: rest) acc calls =
          (if substr "image" e.mimetype then
            match processOne env e.filePath with
            | .error msg => .error msg
            | .ok (img, cs) =>
              read_attachments_aux env rest
                (acc ++ ("![" ++ img ++ "](resources/" ++ img ++ ")" ++ "\n"))
                (calls ++ cs)
          else read_attachments_aux env rest acc calls) from rfl, hf]
      simp only [Bool.false_eq_true, if_false]
      exact ih _ _ (fun e' he' => h e' (List.mem_cons_of_mem e he'))

/- ### The claims -/

/-- C1: the Duplicate Resolver returns `<base>.md` unmodified when no file
of that name exists in the folder, and otherwise returns `<base>(k).md` for
the smallest `k >= 1` whose file does not exist; the returned name never
collides with a pre-existing file. -/
theorem duplicate_resolver_correct (fs : List String) (base : String) :
    (mdName base ∉ fs → resolveDup fs base = base) ∧
    (mdName base ∈ fs →
      ∃ k, 1 ≤ k ∧ resolveDup fs base = numberedName base k ∧
        mdName (numberedName base k) ∉ fs ∧
        ∀ j, 1 ≤ j → j < k → mdName (numberedName base j) ∈ fs) ∧
    mdName (resolveDup fs base) ∉ fs := by
  by_cases h : mdName base ∈ fs
  · refine ⟨fun hn => absurd h hn, fun _ => ?_, ?_⟩
    · refine ⟨Nat.find (exists_fresh fs base) + 1, by omega, ?_, ?_, ?_⟩
      · simp [resolveDup, h]
      · exact Nat.find_spec (exists_fresh fs base)
      · intro j h1 hj
        have hj' : j - 1 < Nat.find (exists_fresh fs base) := by omega
        have h2 := Nat.find_min (exists_fresh fs base) hj'
        have h3 := not_not.mp h2
        have hjj : j - 1 + 1 = j := by omega
        simpa [nameAt, hjj] using h3
    · simp only [resolveDup, h, if_true]
      exact Nat.find_spec (exists_fresh fs base)
  · refine ⟨fun _ => by simp [resolveDup, h], fun hmem => absurd hmem h, ?_⟩
    simp only [resolveDup]
    rw [if_neg h]
    exact h

/-- Witness for C1 at a concrete folder: `a.md` and `a(1).md` exist, so the
resolver must return `a(2)` and that name is fresh. -/
theorem duplicate_resolver_correct_witness :
    ∃ k, 1 ≤ k ∧ resolveDup fs0 "a" = numberedName "a" k ∧
      mdName (numberedName "a" k) ∉ fs0 ∧
      ∀ j, 1 ≤ j → j < k → mdName (numberedName "a" j) ∈ fs0 :=
  (duplicate_resolver_correct fs0 "a").2.1 (by decide)

/-- C2: the Filename Deriver follows the four priority rules (current time
with `_edited` suffix; sanitized, truncated title with a display date
exactly when the timestamp is non-zero; `YYYY-MM-DD+HHMMSS` for a bare
timestamp). -/
theorem filename_deriver_rules (env : Env) (title : String) (ts : Nat) :
    derive env title ts = deriveSpecClaim env title ts := by
  by_cases ht : title = ""
  · by_cases hts : ts = 0
    · simp [derive, deriveSpecClaim, ht, hts]
    · simp [derive, deriveSpecClaim, ht, hts]
  · by_cases hts : ts = 0
    · simp [derive, deriveSpecClaim, ht, hts]
    · simp [derive, deriveSpecClaim, ht, hts]

/-- C3: sanitization maps `\\ / |` to `_`, `< >` to `-`, `:` to a space,
removes `? " *` and newlines, and leaves every other character unchanged,
in place: `clean_title` is the character-wise `filterMap` by
`sanitizeChar`. -/
theorem clean_title_charwise (s : String) :
    clean_title s = ⟨s.data.filterMap sanitizeChar⟩ :=
  clean_title_eq s

/-- C4: the front-matter block is emitted iff `has_title`; the single line
of space-separated wiki-style tag links is emitted iff `has_title` is false
and tags are non-empty; nothing is emitted otherwise. -/
theorem header_emission_rules (has_title : Bool) (date : Option String)
    (tags : List String) :
    headerSection has_title date tags =
      if has_title then frontMatterSpec date tags
      else if tags ≠ [] then tagLinksSpec tags
      else "" := by
  cases has_title with
  | true => simp [headerSection, frontMatterSpec, format_tags]
  | false =>
    cases tags with
    | nil => rfl
    | cons t ts =>
      show ("[[" ++ strJoin "]] [[" (t :: ts) ++ "]]") ++ "\n" = _
      rw [wikiLinks_eq t ts]
      simp [tagLinksSpec]

/-- C5 counterexample: with `photo.jpg` missing and both `photo.jpeg` and
`photo.jpe` present, the first match of the fallback search is
`photo.jpeg`, but the code renders (and therefore links) `photo.jpe` — the
LAST match — having copied every match along the way.  The search does not
stop at the first match. -/
theorem attachment_fallback_first_match_counterexample :
    firstMatchSpec env0 types0 types0 "photo.jpg" = some "photo.jpeg" ∧
    processOne env0 "photo.jpg" =
      .ok ("photo.jpe",
        ["photo.jpg", "photo.jpeg", "photo.jpe", "photo.jpeg", "photo.jpe"]) ∧
    ("photo.jpe" : String) ≠ "photo.jpeg" :=
  ⟨rfl, rfl, by decide⟩

/-- C5 (amended): for a missing image with a guessable MIME type, the
fallback search tests stem-plus-extension candidates by glob, passes every
match to `copy_file` as it is found, and the rendered Markdown link uses
the LAST resolved name (the original name only when no candidate ever
matches). -/
theorem attachment_fallback_last_match (env : Env) (fp mt : String)
    (hmiss : env.srcExists fp = false)
    (hmt : env.guessType fp = some mt) :
    ∃ M, (∀ m ∈ M, env.globMatch m = true) ∧
      read_attachments env [⟨"image", fp⟩] =
        .ok ("*Attachments:*\n" ++
          ("![" ++ M.getLastD fp ++ "](resources/" ++ M.getLastD fp ++ ")" ++
            "\n"), fp :: M) := by
  obtain ⟨M, hM, hg⟩ := read_attachments_single env fp mt hmiss hmt
  exact ⟨M, hg, hM⟩

/-- Witness for C5's amended theorem at the concrete environment of the
counterexample. -/
theorem attachment_fallback_last_match_witness :
    ∃ M, (∀ m ∈ M, env0.globMatch m = true) ∧
      read_attachments env0 [⟨"image", "photo.jpg"⟩] =
        .ok ("*Attachments:*\n" ++
          ("![" ++ M.getLastD "photo.jpg" ++ "](resources/" ++
            M.getLastD "photo.jpg" ++ ")" ++ "\n"), "photo.jpg" :: M) :=
  attachment_fallback_last_match env0 "photo.jpg" "image/jpeg" rfl rfl

/-- C6: the rendered web-link section is the `*Weblinks:*` heading followed
by one ` [title](url);` item per entry whose source is a web link, in
original order, concatenated; entries of other annotation kinds are
silently skipped. -/
theorem weblinks_rendering (l : List Annotation) :
    read_annotations l =
      "*Weblinks:*" ++ strConcat
        ((l.filter (fun e => e.source == "WEBLINK")).map weblinkItem) :=
  read_annotations_foldl l "*Weblinks:*"

/-- C7 counterexample: the Markdown file is opened (created) before
rendering; when the attachment section raises, the file already holds the
header and body text — a partially-written file. -/
theorem partial_write_counterexample :
    writeBad.created = true ∧
    writeBad.err = some "assert failed: no MIME type guess for noext" ∧
    writeBad.content =
      "---\ndate: 2023-11-14T22:13:20\ntags: [home]\n---\n\nhello\n\n" ∧
    writeBad.content ≠ "" :=
  ⟨rfl, rfl, rfl, by decide⟩

/-- C7 (amended): the note's Markdown file is created before its content is
rendered, and the sections are written incrementally; a rendering error in
the attachment section leaves a file containing exactly the sections
written before the error. -/
theorem incremental_write_behavior (env : Env) (has_title : Bool)
    (date : Option String) (tags : List String) (tc : Option String)
    (lc : Option (List TaskItem)) (ann : Option (List Annotation))
    (att : Option (List Attachment)) :
    (writeNote env has_title date tags tc lc ann att).created = true ∧
    ((writeNote env has_title date tags tc lc ann att).err.isSome = true →
      (writeNote env has_title date tags tc lc ann att).content =
        headerSection has_title date tags ++ textSection tc ++
          tasklistSection lc ++ annotationsSection ann) := by
  refine ⟨?_, ?_⟩
  · cases att with
    | none => rfl
    | some l =>
      cases hr : read_attachments env l with
      | error e => simp [writeNote, hr]
      | ok p =>
        obtain ⟨s5, calls⟩ := p
        simp [writeNote, hr]
  · intro hplain
    cases att with
    | none => simp [writeNote] at hplain
    | some l =>
      cases hr : read_attachments env l with
      | error e => simp [writeNote, hr]
      | ok p =>
        obtain ⟨s5, calls⟩ := p
        simp [writeNote, hr] at hplain

/-- Witness for C7's amended theorem at the failing note. -/
theorem incremental_write_behavior_witness :
    writeBad.content =
      headerSection true (some "2023-11-14T22:13:20") ["home"] ++
        textSection (some "hello") ++ tasklistSection none ++
        annotationsSection none :=
  (incremental_write_behavior envNoFs true (some "2023-11-14T22:13:20")
    ["home"] (some "hello") none none (some [⟨"image", "noext"⟩])).2 rfl

/-- C8 counterexample: a missing image whose filename yields no MIME type
guess makes attachment resolution raise (the `assert` on source line 188),
so resolution is NOT error-free for every missing attachment. -/
theorem attachment_assert_counterexample :
    read_attachments envNoFs [⟨"image", "noext"⟩] =
      .error "assert failed: no MIME type guess for noext" ∧
    envNoFs.srcExists "noext" = false :=
  ⟨rfl, rfl⟩

/-- C8 (amended): provided every missing image's MIME type can be guessed
from its name, attachment resolution never raises; in particular when no
alternate is found the Markdown references the original unresolved
filename, nothing is copied, and generation proceeds. -/
theorem attachment_missing_nonfatal_when_guessable :
    (∀ (env : Env) (l : List Attachment),
      (∀ e ∈ l, substr "image" e.mimetype = true →
        env.srcExists e.filePath = false →
        (env.guessType e.filePath).isSome = true) →
      isOkE (read_attachments env l) = true) ∧
    (∀ (env : Env) (fp mt : String),
      env.srcExists fp = false →
      env.guessType fp = some mt →
      (∀ s, env.globMatch s = false) →
      read_attachments env [⟨"image", fp⟩] =
        .ok ("*Attachments:*\n" ++
          ("![" ++ fp ++ "](resources/" ++ fp ++ ")" ++ "\n"), [fp]) ∧
      [fp].filter env.srcExists = []) := by
  constructor
  · intro env l h
    exact read_attachments_aux_ok env l _ [] h
  · intro env fp mt hmiss hmt hng
    constructor
    · have hPn : processOne env fp = .ok (fp, [fp]) := by
        simp [processOne, copy_file, hmiss, hmt, fallbackOuter_noglob env hng]
      have hsub : substr "image" "image" = true := rfl
      simp [read_attachments, read_attachments_aux, hsub, hPn]
    · simp [List.filter, hmiss]

/-- Witness for C8's amended theorem: guessable MIME type, no glob match,
no copy, original name in the link. -/
theorem attachment_missing_nonfatal_witness :
    read_attachments envG [⟨"image", "a.png"⟩] =
      .ok ("*Attachments:*\n" ++
        ("![" ++ "a.png" ++ "](resources/" ++ "a.png" ++ ")" ++ "\n"),
        ["a.png"]) ∧
    ["a.png"].filter envG.srcExists = [] :=
  attachment_missing_nonfatal_when_guessable.2 envG "a.png" "image/png" rfl
    rfl (fun _ => rfl)

/-- C9 counterexample: a present-but-empty annotation list, a wrong-kind
annotation list, and a present-but-empty attachment list each still emit
their bare section heading. -/
theorem empty_section_heading_counterexample :
    (writeNote envNoFs false none [] none none (some []) none).content =
      "*Weblinks:*" ∧
    (writeNote envNoFs false none [] none none
      (some [⟨"OTHER", "t", "u"⟩]) none).content = "*Weblinks:*" ∧
    (writeNote envNoFs false none [] none none none (some [])).content =
      "*Attachments:*\n" :=
  ⟨rfl, rfl, rfl⟩

/-- C9 (amended): an optional section whose key is absent emits nothing at
all; but when the annotations (resp. attachments) key is present, the
`*Weblinks:*` (resp. `*Attachments:*`) heading is emitted even when no
entry qualifies. -/
theorem absent_section_emission :
    (∀ (env : Env) (ht : Bool) (d : Option String) (tags : List String)
      (tc : Option String) (lc : Option (List TaskItem)),
      (writeNote env ht d tags tc lc none none).content =
        headerSection ht d tags ++ textSection tc ++ tasklistSection lc) ∧
    textSection none = "" ∧
    tasklistSection none = "" ∧
    annotationsSection none = "" ∧
    read_annotations [] = "*Weblinks:*" ∧
    (∀ env : Env, read_attachments env [] = .ok ("*Attachments:*\n", [])) := by
  refine ⟨?_, rfl, rfl, rfl, rfl, fun env => rfl⟩
  intro env ht d tags tc lc
  show ((headerSection ht d tags ++ textSection tc) ++ tasklistSection lc) ++
      annotationsSection none = _
  simp [annotationsSection]

/-- C10: title sanitization is idempotent. -/
theorem clean_title_idempotent (s : String) :
    clean_title (clean_title s) = clean_title s := by
  rw [clean_title_eq s, clean_title_eq ⟨s.data.filterMap sanitizeChar⟩]
  exact congrArg String.mk (filterMap_sanitize_idem s.data)
